import Mathlib

/-!
Shallow embedding of the log-processing pipeline (eightfold-assignment).

Producer side (logprocessor/internal/processor/log_processor.go):
  ProcessLogFile reassembles multi-line log records from a file's lines and
  sends them to a bounded channel; ProcessLogs sizes that channel with
  maxParallelLines = 100.

Publisher (logprocessor/internal/messageq, PublishToKafka): splits each
record on " - ", drops records with fewer than two parts, and publishes the
record keyed by the part before the first " - ".

Sanitizing consumer (logsubscriber workers.FileWorker.Start): splits the
message key on "-", takes the first part as the process id, lazily opens and
caches an append-mode handle named <processID>.log under the sanitized
directory, appends value + newline, and closes all cached handles on
shutdown.

Stats consumer (logsubscriber workers.StatsWorker.processLogLine): matches
the record against the header regex, extracts the five groups, parses the
timestamp with Go layout "2006-01-02 15:04:05.999", and builds the row that
is inserted into the log_lines table.

Strings are modelled by Lean String / List Char; Go regexp matching for the
two concrete patterns in the source is modelled by deterministic matchers
(each quantified subpattern of those regexes is followed by a character
outside its class, so the deterministic matcher agrees with the regexp
engine); channels are modelled by a step relation; the file system by an
association list.
-/

namespace EightfoldPipeline

/-! ## Character classes used by the Go regexes (\d, \w, -) -/

/-- Go regexp \d: an ASCII digit (code points 48..57). -/
def isDigitGo (c : Char) : Bool :=
  decide (48 ≤ c.toNat ∧ c.toNat ≤ 57)

/-- Go regexp \w: ASCII letter, digit or underscore. -/
def isWordGo (c : Char) : Bool :=
  isDigitGo c || decide (65 ≤ c.toNat ∧ c.toNat ≤ 90) ||
    decide (97 ≤ c.toNat ∧ c.toNat ≤ 122) || decide (c.toNat = 95)

/-- Go regexp class [\w-]: word character or hyphen. -/
def isWordDashGo (c : Char) : Bool :=
  isWordGo c || decide (c.toNat = 45)

/-! ## Deterministic matching combinators -/

/-- Consume the longest prefix of characters satisfying p; return it and the rest. -/
def eatWhile (p : Char → Bool) : List Char → (List Char × List Char)
  | [] => ([], [])
  | c :: cs =>
    if p c then
      let r := eatWhile p cs
      (c :: r.1, r.2)
    else ([], c :: cs)

/-- Consume a nonempty run of characters satisfying p (regexp +). -/
def eatRun1 (p : Char → Bool) (cs : List Char) : Option (List Char × List Char) :=
  match eatWhile p cs with
  | ([], _) => none
  | (r, rest) => some (r, rest)

/-- Consume one expected literal character. -/
def eatChar (c : Char) : List Char → Option (List Char)
  | [] => none
  | x :: rest => if x = c then some rest else none

/-- Consume exactly n digits (regexp \d{n}), returning them. -/
def eatCountDigits : Nat → List Char → Option (List Char × List Char)
  | 0, cs => some ([], cs)
  | _ + 1, [] => none
  | n + 1, c :: cs =>
    if isDigitGo c then
      (eatCountDigits n cs).map (fun r => (c :: r.1, r.2))
    else none

/-- Numeric value of a digit string, as Go strconv / time parsing reads it. -/
def digitsToNat (ds : List Char) : Nat :=
  ds.foldl (fun n c => n * 10 + (c.toNat - 48)) 0

/-! ## The record-header pattern

Both regexes of the source share one core shape
  \d+:\d+::[\w-]+ \d{4}-\d{2}-\d{2} \d{2}:\d{2}:\d{2},\d{3} - ...
log_processor.go uses
  (\d+:\d+::[\w-]+ \d{4}-\d{2}-\d{2} \d{2}:\d{2}:\d{2},\d{3}) - (.*)
and the stats worker uses
  (\d+):(\d+)::([\w-]+) (\d{4}-\d{2}-\d{2} \d{2}:\d{2}:\d{2},\d{3}) - (.*(?:\n.*)*)
The two have identical match success on every string, since a trailing
.* / .*(?:\n.*)* tail accepts any remainder, and the leading shapes agree.
-/

/-- The date half \d{4}-\d{2}-\d{2} of the timestamp, returned verbatim. -/
def eatDatePart (cs : List Char) : Option (List Char × List Char) :=
  match eatCountDigits 4 cs with
  | none => none
  | some r1 =>
  match eatChar '-' r1.2 with
  | none => none
  | some cs =>
  match eatCountDigits 2 cs with
  | none => none
  | some r2 =>
  match eatChar '-' r2.2 with
  | none => none
  | some cs =>
  match eatCountDigits 2 cs with
  | none => none
  | some r3 => some (r1.1 ++ '-' :: r2.1 ++ '-' :: r3.1, r3.2)

/-- The time half \d{2}:\d{2}:\d{2},\d{3} of the timestamp, returned verbatim. -/
def eatTimePart (cs : List Char) : Option (List Char × List Char) :=
  match eatCountDigits 2 cs with
  | none => none
  | some r4 =>
  match eatChar ':' r4.2 with
  | none => none
  | some cs =>
  match eatCountDigits 2 cs with
  | none => none
  | some r5 =>
  match eatChar ':' r5.2 with
  | none => none
  | some cs =>
  match eatCountDigits 2 cs with
  | none => none
  | some r6 =>
  match eatChar ',' r6.2 with
  | none => none
  | some cs =>
  match eatCountDigits 3 cs with
  | none => none
  | some r7 => some (r4.1 ++ ':' :: r5.1 ++ ':' :: r6.1 ++ ',' :: r7.1, r7.2)

/-- The timestamp slice \d{4}-\d{2}-\d{2} \d{2}:\d{2}:\d{2},\d{3}, returned verbatim. -/
def eatTimestamp (cs : List Char) : Option (List Char × List Char) :=
  match eatDatePart cs with
  | none => none
  | some rd =>
  match eatChar ' ' rd.2 with
  | none => none
  | some cs =>
  match eatTimePart cs with
  | none => none
  | some rt => some (rd.1 ++ ' ' :: rt.1, rt.2)

/-- The five submatches of the stats worker regex. -/
structure StatsMatch where
  processID : List Char
  threadID : List Char
  threadName : List Char
  loggedTime : List Char
  message : List Char
deriving DecidableEq

/-- Match the record-header pattern anchored at the start of cs, capturing the
five groups of the stats regex; the final group takes the whole remainder,
as .*(?:\n.*)* does. -/
def matchStatsAt (cs : List Char) : Option StatsMatch :=
  match eatRun1 isDigitGo cs with
  | none => none
  | some rp =>
  match eatChar ':' rp.2 with
  | none => none
  | some cs =>
  match eatRun1 isDigitGo cs with
  | none => none
  | some rt =>
  match eatChar ':' rt.2 with
  | none => none
  | some cs =>
  match eatChar ':' cs with
  | none => none
  | some cs =>
  match eatRun1 isWordDashGo cs with
  | none => none
  | some rn =>
  match eatChar ' ' rn.2 with
  | none => none
  | some cs =>
  match eatTimestamp cs with
  | none => none
  | some rts =>
  match eatChar ' ' rts.2 with
  | none => none
  | some cs =>
  match eatChar '-' cs with
  | none => none
  | some cs =>
  match eatChar ' ' cs with
  | none => none
  | some cs => some ⟨rp.1, rt.1, rn.1, rts.1, cs⟩

/-- regexp.FindStringSubmatch: try the pattern at each start position, leftmost
match wins; none models the nil result. -/
def findStats : List Char → Option StatsMatch
  | [] => none
  | c :: rest =>
    match matchStatsAt (c :: rest) with
    | some m => some m
    | none => findStats rest

/-- A line matches the log-line regex of log_processor.go (len(match) == 3 in
the source, that is, FindStringSubmatch succeeded). -/
def isLogHeader (line : String) : Bool :=
  (findStats line.data).isSome

/-! ## Record Assembler (ProcessLogFile, log_processor.go lines 100-152) -/

/-- One pass of the scanner loop of ProcessLogFile: logLine is the current
record accumulator; a header line flushes the nonempty accumulator and starts
a new record; any other line is appended after a newline; end of file flushes
the nonempty accumulator. The returned list is the sequence of records sent
to the logLines channel, in order. -/
def processLines : List String → String → List String
  | [], logLine => if logLine ≠ "" then [logLine] else []
  | line :: rest, logLine =>
    if isLogHeader line then
      (if logLine ≠ "" then [logLine] else []) ++ processLines rest line
    else
      processLines rest (logLine ++ "\n" ++ line)

/-- ProcessLogFile on the list of lines of an already opened file. -/
def ProcessLogFile (lines : List String) : List String :=
  processLines lines ""

/-- ProcessLogFile including the os.Open step: a file that fails to open is
logged and contributes no records (the early return at lines 103-107). -/
def ProcessLogFileOpt : Option (List String) → List String
  | none => []
  | some lines => ProcessLogFile lines

/-- All records contributed to the shared channel by a batch of files, one
file after another (one fixed interleaving of the per-file outputs). -/
def processBatch (files : List (Option (List String))) : List String :=
  (files.map ProcessLogFileOpt).flatten

/-- Continuation lines are appended each after a newline separator. -/
def joinConts : List String → String
  | [] => ""
  | c :: cs => "\n" ++ c ++ joinConts cs

/-- The record assembled from a header line and its continuation lines. -/
def mkRecord (header : String) (conts : List String) : String :=
  header ++ joinConts conts

/-- An input file made of blocks, each a header line followed by its
continuation lines. -/
def flattenBlocks (blocks : List (String × List String)) : List String :=
  (blocks.map (fun b => b.1 :: b.2)).flatten

/-! ## Bounded channel (ProcessLogs, log_processor.go lines 63-94) -/

/-- The hard-coded channel capacity of ProcessLogs. -/
def maxParallelLines : Nat := 100

/-- The hard-coded batch width of ProcessLogs. -/
def maxFilesPerBatch : Nat := 10

/-- One step of the buffered channel logLines: a goroutine may complete a send
only while the buffer holds fewer than maxParallelLines records (otherwise it
blocks), and the publisher may receive the oldest buffered record. -/
inductive ChanStep : List String → List String → Prop
  | send (buf : List String) (r : String) (h : buf.length < maxParallelLines) :
      ChanStep buf (buf ++ [r])
  | recv (r : String) (buf : List String) :
      ChanStep (r :: buf) buf

/-- Buffer contents reachable from the freshly made empty channel. -/
inductive ChanReachable : List String → Prop
  | init : ChanReachable []
  | step {b c : List String} : ChanReachable b → ChanStep b c → ChanReachable c

/-! ## Publisher (PublishToKafka, messageq) -/

/-- strings.Split(s, " - "): fields between non-overlapping leftmost
occurrences of the three-character separator. -/
def splitDash3 : List Char → List (List Char)
  | [] => [[]]
  | [c] => [[c]]
  | [c, d] => [[c, d]]
  | c :: d :: e :: rest =>
    if c = ' ' ∧ d = '-' ∧ e = ' ' then
      [] :: splitDash3 rest
    else
      match splitDash3 (d :: e :: rest) with
      | [] => [[c]]
      | f :: fs => (c :: f) :: fs

/-- The record text contains the separator " - " somewhere (spec-side notion
used to compare with the publish condition of the code). -/
def hasSepDash3 : List Char → Bool
  | c :: d :: e :: rest =>
    if c = ' ' ∧ d = '-' ∧ e = ' ' then true else hasSepDash3 (d :: e :: rest)
  | _ => false

/-- A message produced to the bus: Key and Value of the kafka.Message built in
PublishToKafka. -/
structure KafkaMessage where
  key : String
  value : String
deriving DecidableEq

/-- The body of the PublishToKafka loop for one record: split on " - ", log
and skip when fewer than two parts, otherwise publish with key parts[0] and
value the whole record. -/
def publishOne (logLine : String) : Option KafkaMessage :=
  let parts := splitDash3 logLine.data
  if parts.length < 2 then none
  else some ⟨String.mk (parts.headD []), logLine⟩

/-- PublishToKafka over the drained channel contents. -/
def PublishToKafka (logLines : List String) : List KafkaMessage :=
  logLines.filterMap publishOne

/-! ## Sanitizing consumer (FileWorker.Start) -/

/-- strings.Split(key, "-"). -/
def splitDash1 : List Char → List (List Char)
  | [] => [[]]
  | c :: rest =>
    if c = '-' then [] :: splitDash1 rest
    else
      match splitDash1 rest with
      | [] => [[c]]
      | f :: fs => (c :: f) :: fs

/-- Look up a file by name in the modelled directory (first entry wins). -/
def lookupFile : List (String × String) → String → Option String
  | [], _ => none
  | (n, c) :: rest, name => if n = name then some c else lookupFile rest name

/-- Append data to a file, creating it when absent
(os.OpenFile with O_APPEND, O_CREATE, O_WRONLY followed by WriteString). -/
def writeFileAssoc : List (String × String) → String → String → List (String × String)
  | [], name, contents => [(name, contents)]
  | (n, c) :: rest, name, contents =>
    if n = name then (n, c ++ contents) :: rest
    else (n, c) :: writeFileAssoc rest name contents

/-- State of FileWorker.Start: the logFiles cache (process ids holding an open
handle) and the sanitized directory contents. -/
structure WorkerState where
  openHandles : List String
  disk : List (String × String)
deriving DecidableEq

/-- Observable file-handle events of the consumer loop. -/
inductive FwEvent where
  | opened (pid : String)
  | wrote (pid : String) (data : String)
  | closed (pid : String)
  | dropped (key : String)
deriving DecidableEq

/-- One iteration of the for-select body of FileWorker.Start on a delivered
message: split the key on "-", drop it when fewer than two parts, else take
parts[0] as the process id, open (and cache) the handle <dir>/<pid>.log
unless cached, and append value + newline. -/
def fileWorkerHandleMessage (dir : String) (st : WorkerState) (msg : KafkaMessage) :
    WorkerState × List FwEvent :=
  let parts := splitDash1 msg.key.data
  if parts.length < 2 then
    (st, [FwEvent.dropped msg.key])
  else
    let processID := String.mk (parts.headD [])
    let fileName := dir ++ "/" ++ processID ++ ".log"
    if st.openHandles.contains processID then
      ({ st with disk := writeFileAssoc st.disk fileName (msg.value ++ "\n") },
       [FwEvent.wrote processID msg.value])
    else
      ({ openHandles := processID :: st.openHandles,
         disk := writeFileAssoc st.disk fileName (msg.value ++ "\n") },
       [FwEvent.opened processID, FwEvent.wrote processID msg.value])

/-- Run the consumer loop over a finite message sequence. -/
def fileWorkerRunFrom (dir : String) (st : WorkerState) :
    List KafkaMessage → WorkerState × List FwEvent
  | [] => (st, [])
  | m :: ms =>
    let r := fileWorkerHandleMessage dir st m
    let rest := fileWorkerRunFrom dir r.1 ms
    (rest.1, r.2 ++ rest.2)

/-- Full event trace of FileWorker.Start: process the delivered messages from
the empty cache, then, on cancellation, closeLogFiles closes every cached
handle (lines 84-87 and 137-141). -/
def fileWorkerTrace (dir : String) (msgs : List KafkaMessage) : List FwEvent :=
  let r := fileWorkerRunFrom dir ⟨[], []⟩ msgs
  r.2 ++ r.1.openHandles.map FwEvent.closed

/-- The process id the worker extracts from a message key, when well formed. -/
def extractPid (msg : KafkaMessage) : Option String :=
  let parts := splitDash1 msg.key.data
  if parts.length < 2 then none else some (String.mk (parts.headD []))

/-- Process ids of the messages the worker accepts, in delivery order. -/
def seenPids (msgs : List KafkaMessage) : List String :=
  msgs.filterMap extractPid

/-- Number of open events for pid in a trace. -/
def countOpened (evs : List FwEvent) (pid : String) : Nat :=
  evs.countP (fun e => decide (e = FwEvent.opened pid))

/-- Number of close events for pid in a trace. -/
def countClosed (evs : List FwEvent) (pid : String) : Nat :=
  evs.countP (fun e => decide (e = FwEvent.closed pid))

/-! ## Stats consumer (StatsWorker.processLogLine) -/

/-- Unicode white space as strings.TrimSpace sees it, restricted to ASCII. -/
def isSpaceGo (c : Char) : Bool :=
  decide (c.toNat = 32 ∨ c.toNat = 9 ∨ c.toNat = 10 ∨ c.toNat = 13 ∨
    c.toNat = 11 ∨ c.toNat = 12)

/-- strings.TrimSpace. -/
def trimSpace (cs : List Char) : List Char :=
  (((cs.dropWhile isSpaceGo).reverse).dropWhile isSpaceGo).reverse

/-- Proleptic-Gregorian leap year, as Go time uses. -/
def isLeapYear (y : Nat) : Bool :=
  y % 4 = 0 && (y % 100 ≠ 0 || y % 400 = 0)

/-- Length of a month, as Go time.Parse validates the day field. -/
def daysInMonth (y m : Nat) : Nat :=
  if m = 2 then (if isLeapYear y then 29 else 28)
  else if m = 4 ∨ m = 6 ∨ m = 9 ∨ m = 11 then 30
  else 31

/-- Days from the Unix epoch 1970-01-01 to the given civil date
(standard days-from-civil computation over the proleptic Gregorian calendar,
the calendar of Go time.Time). -/
def daysFromCivil (y : Int) (m d : Nat) : Int :=
  let yy : Int := if m ≤ 2 then y - 1 else y
  let era : Int := Int.fdiv yy 400
  let yoe : Int := yy - era * 400
  let doy : Int := (153 * ((m : Int) + (if 2 < m then -3 else 9)) + 2) / 5 + (d : Int) - 1
  let doe : Int := yoe * 365 + yoe / 4 - yoe / 100 + doy
  era * 146097 + doe - 719468

/-- A Go time.Time instant as the stats worker stores it: Unix seconds plus
the sub-second part at millisecond precision (the nanoseconds of the parsed
fraction, divided down to milliseconds). -/
structure GoTime where
  sec : Int
  millis : Nat
deriving DecidableEq

/-- t.Unix(): seconds since the Unix epoch, dropping the sub-second part. -/
def goUnix (t : GoTime) : Int := t.sec

/-- t.UTC(): same instant (Parse without a zone already yields UTC). -/
def goUTC (t : GoTime) : GoTime := t

/-- The instant in whole milliseconds since the epoch. -/
def goTimeTotalMillis (t : GoTime) : Int := t.sec * 1000 + t.millis

/-- Optional fractional second for layout ".999": Go accepts a period or a
comma followed by at least one digit, consuming at most nine digits;
the value is reduced to milliseconds. More than nine fraction digits leave
digits behind and the parse fails on the extra text. -/
def eatFrac : List Char → Option (Nat × List Char)
  | c :: d :: rest =>
    if (c = '.' ∨ c = ',') ∧ isDigitGo d then
      let r := eatWhile isDigitGo (d :: rest)
      if r.1.length ≤ 9 then
        some (digitsToNat r.1 * 10 ^ (9 - r.1.length) / 1000000, r.2)
      else none
    else some (0, c :: d :: rest)
  | cs => some (0, cs)

/-- The numeric fields of the date half of layout "2006-01-02". -/
def parseDateFields (cs : List Char) : Option (Nat × Nat × Nat × List Char) :=
  match eatCountDigits 4 cs with
  | none => none
  | some r1 =>
  match eatChar '-' r1.2 with
  | none => none
  | some cs =>
  match eatCountDigits 2 cs with
  | none => none
  | some r2 =>
  match eatChar '-' r2.2 with
  | none => none
  | some cs =>
  match eatCountDigits 2 cs with
  | none => none
  | some r3 => some (digitsToNat r1.1, digitsToNat r2.1, digitsToNat r3.1, r3.2)

/-- The numeric fields of the clock half of layout "15:04:05". -/
def parseClockFields (cs : List Char) : Option (Nat × Nat × Nat × List Char) :=
  match eatCountDigits 2 cs with
  | none => none
  | some r1 =>
  match eatChar ':' r1.2 with
  | none => none
  | some cs =>
  match eatCountDigits 2 cs with
  | none => none
  | some r2 =>
  match eatChar ':' r2.2 with
  | none => none
  | some cs =>
  match eatCountDigits 2 cs with
  | none => none
  | some r3 => some (digitsToNat r1.1, digitsToNat r2.1, digitsToNat r3.1, r3.2)

/-- time.Parse with layout "2006-01-02 15:04:05.999": scan the six dash,
space and colon separated fields and the optional fraction, require the value
to be exhausted, validate the ranges, and build the instant. -/
def parseGoTime (cs : List Char) : Option GoTime :=
  match parseDateFields cs with
  | none => none
  | some (y, mo, dy, cs) =>
  match eatChar ' ' cs with
  | none => none
  | some cs =>
  match parseClockFields cs with
  | none => none
  | some (hh, mi, ss, cs) =>
  match eatFrac cs with
  | none => none
  | some (ms, cs) =>
  if cs = [] ∧ 1 ≤ mo ∧ mo ≤ 12 ∧ 1 ≤ dy ∧ dy ≤ daysInMonth y mo ∧
      hh ≤ 23 ∧ mi ≤ 59 ∧ ss ≤ 59 then
    some ⟨daysFromCivil (y : Int) mo dy * 86400 + hh * 3600 + mi * 60 + ss, ms⟩
  else none

/-- The row the stats worker persists (struct LogLine of the source). -/
structure LogLine where
  processID : String
  threadID : String
  timestamp : GoTime
  timestampSeconds : Int
  logMessage : String
deriving DecidableEq

/-- Result of one Go call: panicked models a runtime panic. -/
inductive GoOutcome (α : Type) where
  | panicked : GoOutcome α
  | ok : α → GoOutcome α
deriving DecidableEq

/-- StatsWorker.processLogLine: FindStringSubmatch, then unchecked access to
matches[1] (a nil result panics with index out of range), the five group
extractions with TrimSpace on the message, the time.Parse of the timestamp
(failure is logged and nil returned, dropping the record), and the LogLine
row built from Timestamp.UTC() and Timestamp.Unix(); ok (some row) is the row
handed to the database insert. -/
def processLogLine (logLine : String) : GoOutcome (Option LogLine) :=
  match findStats logLine.data with
  | none => GoOutcome.panicked
  | some m =>
    let processID := String.mk m.processID
    let threadID := String.mk m.threadID
    let logMessage := String.mk (trimSpace m.message)
    match parseGoTime m.loggedTime with
    | none => GoOutcome.ok none
    | some t =>
      GoOutcome.ok (some ⟨processID, threadID, goUTC t, goUnix t, logMessage⟩)


/-! ## Helper lemmas -/

theorem string_data_append (a b : String) : (a ++ b).data = a.data ++ b.data := rfl

theorem string_append_assoc (a b c : String) : (a ++ b) ++ c = a ++ (b ++ c) := by
  apply congrArg String.mk
  show (a.data ++ b.data) ++ c.data = a.data ++ (b.data ++ c.data)
  exact List.append_assoc _ _ _

theorem string_mk_data (s : String) : String.mk s.data = s := rfl

theorem string_ne_empty_iff (s : String) : s ≠ "" ↔ s.data ≠ [] := by
  constructor
  · intro h hd
    exact h (by cases s with | mk d => cases hd; rfl)
  · intro h hs
    exact h (by cases hs; rfl)

theorem string_append_ne_empty_left (a b : String) (h : a ≠ "") : a ++ b ≠ "" := by
  rw [string_ne_empty_iff] at h ⊢
  rw [string_data_append]
  intro hc
  exact h (List.append_eq_nil.mp hc).1

/-! ## Theorems -/

/-- C5: the shared logLines channel is created with capacity maxParallelLines,
and a send completes only while the buffer length is below that capacity, so in
every reachable buffer state the number of assembled-but-unpublished records is
at most maxParallelLines, however many assembler goroutines are sending. -/
theorem channel_backpressure_bound (buf : List String) (h : ChanReachable buf) :
    buf.length ≤ maxParallelLines := by
  induction h with
  | init => exact Nat.zero_le _
  | step _ s ih =>
    cases s with
    | send b r hlt => simpa [List.length_append] using hlt
    | recv r b => simp at ih; omega

theorem channel_backpressure_bound_witness :
    ([] : List String).length ≤ maxParallelLines :=
  channel_backpressure_bound [] ChanReachable.init

/-- C8: a file whose open fails contributes no records, and removing it from a
batch leaves the records of every other file unchanged. -/
theorem open_failure_skips_only_that_file :
    ProcessLogFileOpt none = [] ∧
    ∀ (pre post : List (Option (List String))),
      processBatch (pre ++ none :: post) = processBatch pre ++ processBatch post := by
  refine ⟨rfl, ?_⟩
  intro pre post
  simp [processBatch, ProcessLogFileOpt]

theorem string_empty_append (s : String) : "" ++ s = s :=
  congrArg String.mk (List.nil_append s.data)

theorem string_append_empty (s : String) : s ++ "" = s :=
  congrArg String.mk (List.append_nil s.data)

theorem isLogHeader_ne_empty {s : String} (h : isLogHeader s = true) : s ≠ "" := by
  intro hs
  rw [hs] at h
  exact absurd h (by decide)

theorem joinConts_cons_ne_empty (c : String) (cs : List String) :
    joinConts (c :: cs) ≠ "" := by
  rw [string_ne_empty_iff]
  show ("\n" ++ c ++ joinConts cs).data ≠ []
  rw [string_data_append, string_data_append]
  simp

theorem mkRecord_ne_empty (h : String) (cs : List String) (hh : isLogHeader h = true) :
    mkRecord h cs ≠ "" :=
  string_append_ne_empty_left _ _ (isLogHeader_ne_empty hh)

theorem processLines_nonheader_append (cs ls : List String) (cur : String)
    (h : ∀ c ∈ cs, isLogHeader c = false) :
    processLines (cs ++ ls) cur = processLines ls (cur ++ joinConts cs) := by
  induction cs generalizing cur with
  | nil => rw [List.nil_append, joinConts, string_append_empty]
  | cons c cs ih =>
    have hc : isLogHeader c = false := h c (by simp)
    have hrest : ∀ x ∈ cs, isLogHeader x = false := fun x hx => h x (by simp [hx])
    rw [List.cons_append]
    show (if isLogHeader c then _ else processLines (cs ++ ls) (cur ++ "\n" ++ c)) = _
    rw [hc]
    simp only [Bool.false_eq_true, if_false]
    rw [ih _ hrest, joinConts]
    congr 1
    rw [string_append_assoc, string_append_assoc, string_append_assoc]

theorem processLines_flattenBlocks (blocks : List (String × List String)) (cur : String)
    (hcur : cur ≠ "")
    (hH : ∀ b ∈ blocks, isLogHeader b.1 = true)
    (hC : ∀ b ∈ blocks, ∀ c ∈ b.2, isLogHeader c = false) :
    processLines (flattenBlocks blocks) cur =
      cur :: blocks.map (fun b => mkRecord b.1 b.2) := by
  induction blocks generalizing cur with
  | nil =>
    show (if cur ≠ "" then [cur] else []) = [cur]
    rw [if_pos hcur]
  | cons b bs ih =>
    have hb : isLogHeader b.1 = true := hH b (by simp)
    have hbs : ∀ x ∈ bs, isLogHeader x.1 = true := fun x hx => hH x (by simp [hx])
    have hcb : ∀ c ∈ b.2, isLogHeader c = false := hC b (by simp)
    have hcs : ∀ x ∈ bs, ∀ c ∈ x.2, isLogHeader c = false := fun x hx => hC x (by simp [hx])
    have hflat : flattenBlocks (b :: bs) = b.1 :: (b.2 ++ flattenBlocks bs) := by
      simp [flattenBlocks]
    rw [hflat]
    show (if isLogHeader b.1 then (if cur ≠ "" then [cur] else []) ++
        processLines (b.2 ++ flattenBlocks bs) b.1 else _) = _
    rw [hb]
    simp only [if_true, if_pos hcur]
    rw [processLines_nonheader_append _ _ _ hcb]
    show [cur] ++ processLines (flattenBlocks bs) (mkRecord b.1 b.2) = _
    rw [ih _ (mkRecord_ne_empty b.1 b.2 hb) hbs hcs]
    rfl

/-- C4: on an input file made of K header lines each followed by its
continuation lines, ProcessLogFile emits exactly K records, the i-th being its
header concatenated with its continuation lines joined by newline separators,
and no emitted record is blank. -/
theorem assembler_reassembles_blocks (blocks : List (String × List String))
    (hH : ∀ b ∈ blocks, isLogHeader b.1 = true)
    (hC : ∀ b ∈ blocks, ∀ c ∈ b.2, isLogHeader c = false) :
    ProcessLogFile (flattenBlocks blocks) =
      blocks.map (fun b => mkRecord b.1 b.2) ∧
    (ProcessLogFile (flattenBlocks blocks)).length = blocks.length ∧
    ∀ r ∈ ProcessLogFile (flattenBlocks blocks), r ≠ "" := by
  have key : ProcessLogFile (flattenBlocks blocks) =
      blocks.map (fun b => mkRecord b.1 b.2) := by
    cases blocks with
    | nil =>
      show (if ("" : String) ≠ "" then [("" : String)] else []) = []
      simp
    | cons b bs =>
      have hb : isLogHeader b.1 = true := hH b (by simp)
      have hbs : ∀ x ∈ bs, isLogHeader x.1 = true := fun x hx => hH x (by simp [hx])
      have hcb : ∀ c ∈ b.2, isLogHeader c = false := hC b (by simp)
      have hcs : ∀ x ∈ bs, ∀ c ∈ x.2, isLogHeader c = false := fun x hx => hC x (by simp [hx])
      have hflat : flattenBlocks (b :: bs) = b.1 :: (b.2 ++ flattenBlocks bs) := by
        simp [flattenBlocks]
      unfold ProcessLogFile
      rw [hflat]
      show (if isLogHeader b.1 then (if ("" : String) ≠ "" then [("" : String)] else []) ++
          processLines (b.2 ++ flattenBlocks bs) b.1 else _) = _
      rw [hb]
      simp only [if_true, ne_eq, not_true_eq_false, if_false, List.nil_append]
      rw [processLines_nonheader_append _ _ _ hcb]
      show processLines (flattenBlocks bs) (mkRecord b.1 b.2) = _
      rw [processLines_flattenBlocks bs _ (mkRecord_ne_empty b.1 b.2 hb) hbs hcs]
      rfl
  refine ⟨key, by rw [key]; simp, ?_⟩
  intro r hr
  rw [key] at hr
  simp only [List.mem_map] at hr
  obtain ⟨b, hb, rfl⟩ := hr
  exact mkRecord_ne_empty b.1 b.2 (hH b hb)

theorem assembler_reassembles_blocks_witness :
    ProcessLogFile (flattenBlocks
      [("1:10::main 2023-01-01 00:00:00,000 - start", ["cont1"]),
       ("1:10::main 2023-01-01 00:00:01,000 - end", [])]) =
      ["1:10::main 2023-01-01 00:00:00,000 - start\ncont1",
       "1:10::main 2023-01-01 00:00:01,000 - end"] :=
  ((assembler_reassembles_blocks
      [("1:10::main 2023-01-01 00:00:00,000 - start", ["cont1"]),
       ("1:10::main 2023-01-01 00:00:01,000 - end", [])]
      (by decide) (by decide)).1).trans (by decide)

/-- C10: a file whose first lines do not match the header pattern makes the
assembler emit those lines as an extra first record that begins with a newline
character, ahead of the records of the well-formed blocks. -/
theorem assembler_emits_leading_junk_record (junk : List String)
    (blocks : List (String × List String))
    (hne : junk ≠ [])
    (hj : ∀ j ∈ junk, isLogHeader j = false)
    (hH : ∀ b ∈ blocks, isLogHeader b.1 = true)
    (hC : ∀ b ∈ blocks, ∀ c ∈ b.2, isLogHeader c = false) :
    ProcessLogFile (junk ++ flattenBlocks blocks) =
      mkRecord "" junk :: blocks.map (fun b => mkRecord b.1 b.2) ∧
    (mkRecord "" junk).data.head? = some '\n' := by
  obtain ⟨j, js, rfl⟩ := List.exists_cons_of_ne_nil hne
  constructor
  · unfold ProcessLogFile
    rw [processLines_nonheader_append _ _ _ hj]
    have hne2 : ("" : String) ++ joinConts (j :: js) ≠ "" := by
      rw [string_empty_append]
      exact joinConts_cons_ne_empty j js
    rw [processLines_flattenBlocks blocks _ hne2 hH hC]
    rfl
  · show (("" : String) ++ ("\n" ++ j ++ joinConts js)).data.head? = some '\n'
    rw [string_data_append, string_data_append, string_data_append]
    rfl

theorem assembler_emits_leading_junk_record_witness :
    ProcessLogFile (["garbage first line"] ++ flattenBlocks
      [("1:2::a 2023-01-01 00:00:00,000 - x", [])]) =
      ["\ngarbage first line", "1:2::a 2023-01-01 00:00:00,000 - x"] ∧
    ("\ngarbage first line" : String).data.head? = some '\n' := by
  have h := assembler_emits_leading_junk_record ["garbage first line"]
    [("1:2::a 2023-01-01 00:00:00,000 - x", [])]
    (by decide) (by decide) (by decide) (by decide)
  exact ⟨h.1.trans (by decide), by decide⟩

theorem splitDash3_ne_nil (cs : List Char) : splitDash3 cs ≠ [] := by
  induction cs using splitDash3.induct with
  | case1 => simp [splitDash3]
  | case2 c => simp [splitDash3]
  | case3 c d => simp [splitDash3]
  | case4 c d e rest h ih => simp [splitDash3, h]
  | case5 c d e rest h heq ih =>
    rw [splitDash3, if_neg h]
    simp only [heq]
    simp
  | case6 c d e rest h f fs heq ih =>
    rw [splitDash3, if_neg h]
    simp only [heq]
    simp

theorem splitDash3_length_iff (cs : List Char) :
    2 ≤ (splitDash3 cs).length ↔ hasSepDash3 cs = true := by
  induction cs using splitDash3.induct with
  | case1 => simp [splitDash3, hasSepDash3]
  | case2 c => simp [splitDash3, hasSepDash3]
  | case3 c d => simp [splitDash3, hasSepDash3]
  | case4 c d e rest h ih =>
    rw [splitDash3, if_pos h]
    have h1 : 1 ≤ (splitDash3 rest).length :=
      List.length_pos.mpr (splitDash3_ne_nil rest)
    simp [hasSepDash3, h]
    omega
  | case5 c d e rest h heq ih =>
    exact absurd heq (splitDash3_ne_nil _)
  | case6 c d e rest h f fs heq ih =>
    rw [splitDash3, if_neg h]
    simp only [heq]
    rw [heq] at ih
    simp only [hasSepDash3, if_neg h]
    simpa using ih

/-- C9: the publisher produces a message for a record exactly when the record
text contains the separator " - "; a record without it is skipped, so no
published message carries such a record as its value. -/
theorem publish_iff_contains_separator :
    (∀ r : String, (publishOne r).isSome = hasSepDash3 r.data) ∧
    ∀ (lines : List String) (m : KafkaMessage),
      m ∈ PublishToKafka lines → hasSepDash3 m.value.data = true := by
  have key : ∀ r : String, (publishOne r).isSome = hasSepDash3 r.data := by
    intro r
    by_cases h : (splitDash3 r.data).length < 2
    · have hsep : hasSepDash3 r.data = false := by
        cases hs : hasSepDash3 r.data
        · rfl
        · exact absurd ((splitDash3_length_iff r.data).mpr hs) (by omega)
      simp [publishOne, h, hsep]
    · have hsep : hasSepDash3 r.data = true :=
        (splitDash3_length_iff r.data).mp (by omega)
      simp [publishOne, h, hsep]
  refine ⟨key, ?_⟩
  intro lines m hm
  rw [PublishToKafka, List.mem_filterMap] at hm
  obtain ⟨r, hr, hpub⟩ := hm
  have hv : m.value = r := by
    by_cases h : (splitDash3 r.data).length < 2
    · simp [publishOne, h] at hpub
    · simp [publishOne, h] at hpub
      rw [← hpub]
  have hsome : (publishOne r).isSome = true := by rw [hpub]; rfl
  rw [key r] at hsome
  rw [hv]
  exact hsome

theorem splitDash1_ne_nil (cs : List Char) : splitDash1 cs ≠ [] := by
  induction cs using splitDash1.induct with
  | case1 => simp [splitDash1]
  | case2 cs ih => simp [splitDash1]
  | case3 c cs h heq ih =>
    exact absurd heq ih
  | case4 c rest h f fs heq ih =>
    rw [splitDash1, if_neg h]
    simp only [heq]
    simp

theorem splitDash1_append_key (p t : List Char) (hp : '-' ∉ p) :
    splitDash1 (p ++ '-' :: t) = p :: splitDash1 t := by
  induction p with
  | nil =>
    rw [List.nil_append, splitDash1, if_pos rfl]
  | cons c p ih =>
    have hc : ¬ c = '-' := fun hc => hp (by simp [hc])
    have hp2 : '-' ∉ p := fun hm => hp (by simp [hm])
    rw [List.cons_append, splitDash1, if_neg hc, ih hp2]

theorem lookupFile_writeFileAssoc (disk : List (String × String)) (n d : String) :
    lookupFile (writeFileAssoc disk n d) n =
      some ((lookupFile disk n).getD "" ++ d) := by
  induction disk with
  | nil =>
    show (if n = n then some d else _) = some (("" : String) ++ d)
    rw [if_pos rfl, string_empty_append]
  | cons e rest ih =>
    by_cases h : e.1 = n
    · show lookupFile (if e.1 = n then (e.1, e.2 ++ d) :: rest else _) n = _
      rw [if_pos h]
      show (if e.1 = n then some (e.2 ++ d) else _) = _
      rw [if_pos h]
      show _ = some ((if e.1 = n then some e.2 else lookupFile rest n).getD "" ++ d)
      rw [if_pos h]
      rfl
    · show lookupFile (if e.1 = n then _ else (e.1, e.2) :: writeFileAssoc rest n d) n = _
      rw [if_neg h]
      show (if e.1 = n then some e.2 else lookupFile (writeFileAssoc rest n d) n) = _
      rw [if_neg h, ih]
      show _ = some ((if e.1 = n then some e.2 else lookupFile rest n).getD "" ++ d)
      rw [if_neg h]

/-- C3: a record delivered with a well-formed key processID-threadID (the
process id itself containing no hyphen) makes the sanitizing consumer append
rawText plus a newline to the file <processID>.log under the configured
sanitized directory, whatever the prior cache and directory state. -/
theorem sanitizer_appends_rawtext (dir pid tid raw : String) (st : WorkerState)
    (hp : '-' ∉ pid.data) :
    lookupFile ((fileWorkerHandleMessage dir st ⟨pid ++ "-" ++ tid, raw⟩).1).disk
        (dir ++ "/" ++ pid ++ ".log")
      = some ((lookupFile st.disk (dir ++ "/" ++ pid ++ ".log")).getD ""
          ++ (raw ++ "\n")) := by
  have hkey : (pid ++ "-" ++ tid).data = pid.data ++ '-' :: tid.data := by
    rw [string_data_append, string_data_append]
    rw [List.append_assoc]
    rfl
  have hsplit : splitDash1 ((pid ++ "-" ++ tid) : String).data
      = pid.data :: splitDash1 tid.data := by
    rw [hkey]
    exact splitDash1_append_key pid.data tid.data hp
  have hlen : ¬ (splitDash1 ((pid ++ "-" ++ tid) : String).data).length < 2 := by
    rw [hsplit]
    have h1 : 1 ≤ (splitDash1 tid.data).length :=
      List.length_pos.mpr (splitDash1_ne_nil tid.data)
    simp
    omega
  unfold fileWorkerHandleMessage
  simp only [hsplit] at hlen ⊢
  rw [if_neg hlen]
  simp only [List.headD_cons, string_mk_data]
  by_cases hc : st.openHandles.contains pid
  · rw [if_pos hc]
    exact lookupFile_writeFileAssoc st.disk _ _
  · rw [if_neg hc]
    exact lookupFile_writeFileAssoc st.disk _ _

theorem sanitizer_appends_rawtext_witness :
    lookupFile ((fileWorkerHandleMessage "sanitized" ⟨[], []⟩
        ⟨"1" ++ "-" ++ "10", "rec"⟩).1).disk
        ("sanitized" ++ "/" ++ "1" ++ ".log")
      = some ((lookupFile (⟨[], []⟩ : WorkerState).disk
          ("sanitized" ++ "/" ++ "1" ++ ".log")).getD "" ++ ("rec" ++ "\n")) :=
  sanitizer_appends_rawtext "sanitized" "1" "10" "rec" ⟨[], []⟩ (by decide)

theorem countOpened_append (a b : List FwEvent) (pid : String) :
    countOpened (a ++ b) pid = countOpened a pid + countOpened b pid :=
  List.countP_append _ a b

theorem countClosed_append (a b : List FwEvent) (pid : String) :
    countClosed (a ++ b) pid = countClosed a pid + countClosed b pid :=
  List.countP_append _ a b

theorem handleMessage_shape (dir : String) (st : WorkerState) (m : KafkaMessage) :
    (extractPid m = none ∧ (fileWorkerHandleMessage dir st m).1 = st ∧
      (fileWorkerHandleMessage dir st m).2 = [FwEvent.dropped m.key])
    ∨ ∃ q, extractPid m = some q ∧
      ((q ∈ st.openHandles ∧
          (fileWorkerHandleMessage dir st m).1.openHandles = st.openHandles ∧
          (fileWorkerHandleMessage dir st m).2 = [FwEvent.wrote q m.value])
       ∨ (q ∉ st.openHandles ∧
          (fileWorkerHandleMessage dir st m).1.openHandles = q :: st.openHandles ∧
          (fileWorkerHandleMessage dir st m).2
            = [FwEvent.opened q, FwEvent.wrote q m.value])) := by
  by_cases hl : (splitDash1 m.key.data).length < 2
  · exact Or.inl ⟨by simp [extractPid, hl], by simp [fileWorkerHandleMessage, hl],
      by simp [fileWorkerHandleMessage, hl]⟩
  · refine Or.inr ⟨String.mk ((splitDash1 m.key.data).head?.getD []),
      by simp [extractPid, hl], ?_⟩
    by_cases hc : String.mk ((splitDash1 m.key.data).head?.getD []) ∈ st.openHandles
    · exact Or.inl ⟨hc,
        by simp [fileWorkerHandleMessage, hl, hc],
        by simp [fileWorkerHandleMessage, hl, hc]⟩
    · exact Or.inr ⟨hc,
        by simp [fileWorkerHandleMessage, hl, hc],
        by simp [fileWorkerHandleMessage, hl, hc]⟩

theorem handleMessage_cache_step (dir : String) (st : WorkerState)
    (m : KafkaMessage) (pid : String) :
    ((if pid ∈ (fileWorkerHandleMessage dir st m).1.openHandles then 1 else 0)
      = (if pid ∈ st.openHandles then 1 else 0)
        + countOpened (fileWorkerHandleMessage dir st m).2 pid)
    ∧ countClosed (fileWorkerHandleMessage dir st m).2 pid = 0
    ∧ ((pid ∈ (fileWorkerHandleMessage dir st m).1.openHandles)
        ↔ (pid ∈ st.openHandles ∨ extractPid m = some pid))
    ∧ (st.openHandles.Nodup → (fileWorkerHandleMessage dir st m).1.openHandles.Nodup) := by
  rcases handleMessage_shape dir st m with ⟨hx, hst, hev⟩ | ⟨q, hx, hcase⟩
  · rw [hst, hev, hx]
    simp [countOpened, countClosed]
  · rcases hcase with ⟨hmem, hoh, hev⟩ | ⟨hnmem, hoh, hev⟩
    · rw [hoh, hev, hx]
      refine ⟨by simp [countOpened], by simp [countClosed], ?_, fun h => h⟩
      constructor
      · exact Or.inl
      · rintro (h | h)
        · exact h
        · injection h with h2
          rw [← h2]
          exact hmem
    · rw [hoh, hev, hx]
      have hiff : (pid ∈ q :: st.openHandles) ↔ (pid ∈ st.openHandles ∨ q = pid) := by
        rw [List.mem_cons]
        constructor
        · rintro (h | h)
          · exact Or.inr h.symm
          · exact Or.inl h
        · rintro (h | h)
          · exact Or.inr h
          · exact Or.inl h.symm
      have hco : countOpened [FwEvent.opened q, FwEvent.wrote q m.value] pid
          = if q = pid then 1 else 0 := by
        by_cases hq : q = pid
        · simp [countOpened, hq]
        · simp [countOpened, hq]
      refine ⟨?_, by simp [countClosed], ?_, fun hnd => List.Nodup.cons hnmem hnd⟩
      · rw [hco]
        by_cases hq : q = pid
        · have hn : pid ∉ st.openHandles := by rw [← hq]; exact hnmem
          rw [if_pos (hiff.mpr (Or.inr hq)), if_neg hn, if_pos hq]
        · rw [if_neg hq, Nat.add_zero]
          have hiff2 : (pid ∈ q :: st.openHandles) ↔ pid ∈ st.openHandles := by
            rw [hiff]
            exact or_iff_left hq
          rw [if_congr hiff2 rfl rfl]
      · rw [hiff]
        constructor
        · rintro (h | h)
          · exact Or.inl h
          · exact Or.inr (by rw [h])
        · rintro (h | h)
          · exact Or.inl h
          · injection h with h2
            exact Or.inr h2

theorem runFrom_cache (dir : String) (msgs : List KafkaMessage) :
    ∀ (st : WorkerState) (pid : String),
      ((if pid ∈ (fileWorkerRunFrom dir st msgs).1.openHandles then 1 else 0)
        = (if pid ∈ st.openHandles then 1 else 0)
          + countOpened (fileWorkerRunFrom dir st msgs).2 pid)
      ∧ countClosed (fileWorkerRunFrom dir st msgs).2 pid = 0
      ∧ ((pid ∈ (fileWorkerRunFrom dir st msgs).1.openHandles)
          ↔ (pid ∈ st.openHandles ∨ pid ∈ seenPids msgs))
      ∧ (st.openHandles.Nodup → (fileWorkerRunFrom dir st msgs).1.openHandles.Nodup) := by
  induction msgs with
  | nil =>
    intro st pid
    simp [fileWorkerRunFrom, countOpened, countClosed, seenPids]
  | cons m ms ih =>
    intro st pid
    obtain ⟨h1, h2, h3, h4⟩ := handleMessage_cache_step dir st m pid
    obtain ⟨g1, g2, g3, g4⟩ := ih (fileWorkerHandleMessage dir st m).1 pid
    have hseen : pid ∈ seenPids (m :: ms)
        ↔ (extractPid m = some pid ∨ pid ∈ seenPids ms) := by
      cases hx : extractPid m with
      | none => simp [seenPids, List.filterMap_cons, hx]
      | some q =>
        simp only [seenPids, List.filterMap_cons, hx, List.mem_cons, Option.some.injEq]
        constructor
        · rintro (h | h)
          · exact Or.inl h.symm
          · exact Or.inr h
        · rintro (h | h)
          · exact Or.inl h.symm
          · exact Or.inr h
    refine ⟨?_, ?_, ?_, ?_⟩
    · show (if pid ∈ (fileWorkerRunFrom dir (fileWorkerHandleMessage dir st m).1 ms).1.openHandles
          then 1 else 0) = (if pid ∈ st.openHandles then 1 else 0)
            + countOpened ((fileWorkerHandleMessage dir st m).2
              ++ (fileWorkerRunFrom dir (fileWorkerHandleMessage dir st m).1 ms).2) pid
      rw [countOpened_append, g1, h1]
      omega
    · show countClosed ((fileWorkerHandleMessage dir st m).2
          ++ (fileWorkerRunFrom dir (fileWorkerHandleMessage dir st m).1 ms).2) pid = 0
      rw [countClosed_append, h2, g2]
    · show (pid ∈ (fileWorkerRunFrom dir (fileWorkerHandleMessage dir st m).1 ms).1.openHandles)
          ↔ (pid ∈ st.openHandles ∨ pid ∈ seenPids (m :: ms))
      rw [g3, h3, hseen]
      exact or_assoc
    · intro hnd
      show (fileWorkerRunFrom dir (fileWorkerHandleMessage dir st m).1 ms).1.openHandles.Nodup
      exact g4 (h4 hnd)

theorem nodup_countP_closed (pid : String) :
    ∀ (l : List String), l.Nodup →
      l.countP (fun x => decide (FwEvent.closed x = FwEvent.closed pid))
        = if pid ∈ l then 1 else 0 := by
  intro l
  induction l with
  | nil => intro h; simp
  | cons a l ih =>
    intro hl
    rcases List.nodup_cons.mp hl with ⟨hna, hnl⟩
    rw [List.countP_cons, ih hnl]
    by_cases ha : a = pid
    · have hn : pid ∉ l := by rw [← ha]; exact hna
      rw [if_neg hn, if_pos (List.mem_cons.mpr (Or.inl ha.symm))]
      simp [ha]
    · have hiff : (pid ∈ a :: l) ↔ pid ∈ l := by
        rw [List.mem_cons]
        constructor
        · rintro (h | h)
          · exact absurd h.symm ha
          · exact h
        · exact Or.inr
      rw [if_congr hiff rfl rfl]
      simp [ha]

/-- C6: over any delivered message sequence, the sanitizing consumer opens at
most one handle per process id, opens one exactly when some accepted record
names that process id (created lazily on its first record), and at shutdown
closes exactly as many handles for that process id as it opened. -/
theorem sanitizer_handle_cache_exactly_once (dir : String) (msgs : List KafkaMessage)
    (pid : String) :
    countOpened (fileWorkerTrace dir msgs) pid ≤ 1 ∧
    countClosed (fileWorkerTrace dir msgs) pid
      = countOpened (fileWorkerTrace dir msgs) pid ∧
    (countOpened (fileWorkerTrace dir msgs) pid = 1 ↔ pid ∈ seenPids msgs) := by
  obtain ⟨h1, h2, h3, h4⟩ := runFrom_cache dir msgs ⟨[], []⟩ pid
  have hnil : pid ∉ (⟨[], []⟩ : WorkerState).openHandles := by
    intro h
    exact absurd h (List.not_mem_nil pid)
  rw [if_neg hnil, Nat.zero_add] at h1
  have hnd : (fileWorkerRunFrom dir ⟨[], []⟩ msgs).1.openHandles.Nodup := by
    apply h4
    exact List.nodup_nil
  have h3simp : (pid ∈ (fileWorkerRunFrom dir ⟨[], []⟩ msgs).1.openHandles)
      ↔ pid ∈ seenPids msgs := by
    rw [h3]
    constructor
    · rintro (h | h)
      · exact absurd h hnil
      · exact h
    · exact Or.inr
  have hto : countOpened (fileWorkerTrace dir msgs) pid
      = countOpened (fileWorkerRunFrom dir ⟨[], []⟩ msgs).2 pid := by
    show countOpened ((fileWorkerRunFrom dir ⟨[], []⟩ msgs).2
      ++ (fileWorkerRunFrom dir ⟨[], []⟩ msgs).1.openHandles.map FwEvent.closed) pid = _
    rw [countOpened_append]
    have hz : countOpened
        ((fileWorkerRunFrom dir ⟨[], []⟩ msgs).1.openHandles.map FwEvent.closed) pid = 0 := by
      show List.countP _ _ = 0
      rw [List.countP_map]
      simp
    rw [hz, Nat.add_zero]
  have htc : countClosed (fileWorkerTrace dir msgs) pid
      = if pid ∈ (fileWorkerRunFrom dir ⟨[], []⟩ msgs).1.openHandles then 1 else 0 := by
    show countClosed ((fileWorkerRunFrom dir ⟨[], []⟩ msgs).2
      ++ (fileWorkerRunFrom dir ⟨[], []⟩ msgs).1.openHandles.map FwEvent.closed) pid = _
    rw [countClosed_append, h2, Nat.zero_add]
    show List.countP _ _ = _
    rw [List.countP_map]
    exact nodup_countP_closed pid _ hnd
  refine ⟨?_, ?_, ?_⟩
  · rw [hto, ← h1]
    by_cases hm : pid ∈ (fileWorkerRunFrom dir ⟨[], []⟩ msgs).1.openHandles
    · rw [if_pos hm]
    · rw [if_neg hm]
      omega
  · rw [htc, hto, ← h1]
  · rw [hto, ← h1, ← h3simp]
    by_cases hm : pid ∈ (fileWorkerRunFrom dir ⟨[], []⟩ msgs).1.openHandles
    · simp [hm]
    · simp [hm]

theorem foldl_digits_lt (ds : List Char) :
    ∀ acc : Nat, (∀ c ∈ ds, isDigitGo c = true) →
      ds.foldl (fun n c => n * 10 + (c.toNat - 48)) acc < (acc + 1) * 10 ^ ds.length := by
  induction ds with
  | nil =>
    intro acc h
    simp
  | cons c ds ih =>
    intro acc h
    have hc : isDigitGo c = true := h c (by simp)
    have hd : c.toNat - 48 ≤ 9 := by
      have := of_decide_eq_true hc
      omega
    have hrest : ∀ x ∈ ds, isDigitGo x = true := fun x hx => h x (by simp [hx])
    rw [List.foldl_cons]
    have hstep : acc * 10 + (c.toNat - 48) + 1 ≤ (acc + 1) * 10 := by omega
    calc ds.foldl (fun n c => n * 10 + (c.toNat - 48)) (acc * 10 + (c.toNat - 48))
        < (acc * 10 + (c.toNat - 48) + 1) * 10 ^ ds.length := ih _ hrest
      _ ≤ ((acc + 1) * 10) * 10 ^ ds.length := Nat.mul_le_mul_right _ hstep
      _ = (acc + 1) * 10 ^ (ds.length + 1) := by ring
      _ = (acc + 1) * 10 ^ (c :: ds).length := by rw [List.length_cons]

theorem digitsToNat_lt_pow (ds : List Char) (h : ∀ c ∈ ds, isDigitGo c = true) :
    digitsToNat ds < 10 ^ ds.length := by
  have := foldl_digits_lt ds 0 h
  simpa [digitsToNat] using this

theorem eatWhile_mem_pred (p : Char → Bool) :
    ∀ (cs : List Char), ∀ c ∈ (eatWhile p cs).1, p c = true := by
  intro cs
  induction cs with
  | nil =>
    intro c hc
    simp [eatWhile] at hc
  | cons a cs ih =>
    intro c hc
    by_cases hp : p a
    · simp only [eatWhile, hp, if_true] at hc
      rcases List.mem_cons.mp hc with h | h
      · rw [h]; exact hp
      · exact ih c h
    · simp [eatWhile, hp] at hc

theorem eatFrac_millis_lt (cs : List Char) (ms : Nat) (rest : List Char)
    (h : eatFrac cs = some (ms, rest)) : ms < 1000 := by
  rcases cs with _ | ⟨c, _ | ⟨d, rest2⟩⟩
  · have he : eatFrac ([] : List Char) = some (0, []) := rfl
    rw [he] at h
    injection h with h2
    injection h2 with h3 h4
    omega
  · have he : eatFrac [c] = some (0, [c]) := rfl
    rw [he] at h
    injection h with h2
    injection h2 with h3 h4
    omega
  · simp only [eatFrac] at h
    by_cases hif : (c = '.' ∨ c = ',') ∧ isDigitGo d
    · rw [if_pos hif] at h
      by_cases hlen : (eatWhile isDigitGo (d :: rest2)).1.length ≤ 9
      · rw [if_pos hlen] at h
        injection h with h2
        injection h2 with h3 h4
        rw [← h3]
        have hdig : ∀ x ∈ (eatWhile isDigitGo (d :: rest2)).1, isDigitGo x = true :=
          eatWhile_mem_pred isDigitGo (d :: rest2)
        have hlt : digitsToNat (eatWhile isDigitGo (d :: rest2)).1
            < 10 ^ (eatWhile isDigitGo (d :: rest2)).1.length :=
          digitsToNat_lt_pow _ hdig
        have hX : digitsToNat (eatWhile isDigitGo (d :: rest2)).1
            * 10 ^ (9 - (eatWhile isDigitGo (d :: rest2)).1.length) < 10 ^ 9 := by
          have hp : 0 < 10 ^ (9 - (eatWhile isDigitGo (d :: rest2)).1.length) :=
            Nat.pos_pow_of_pos _ (by norm_num)
          calc digitsToNat (eatWhile isDigitGo (d :: rest2)).1
              * 10 ^ (9 - (eatWhile isDigitGo (d :: rest2)).1.length)
              < 10 ^ (eatWhile isDigitGo (d :: rest2)).1.length
                * 10 ^ (9 - (eatWhile isDigitGo (d :: rest2)).1.length) :=
                (Nat.mul_lt_mul_right hp).mpr hlt
            _ = 10 ^ 9 := by
                rw [← pow_add]
                congr 1
                omega
        have hX2 : digitsToNat (eatWhile isDigitGo (d :: rest2)).1
            * 10 ^ (9 - (eatWhile isDigitGo (d :: rest2)).1.length) < 1000000 * 1000 := by
          rw [show (1000000 * 1000 : Nat) = 10 ^ 9 by norm_num]
          exact hX
        exact Nat.div_lt_of_lt_mul hX2
      · rw [if_neg hlen] at h
        exact absurd h (by simp)
    · rw [if_neg hif] at h
      injection h with h2
      injection h2 with h3 h4
      omega

theorem parseGoTime_millis_lt (cs : List Char) (t : GoTime)
    (h : parseGoTime cs = some t) : t.millis < 1000 := by
  unfold parseGoTime at h
  split at h
  · exact absurd h (by simp)
  next y mo dy cs1 heq1 =>
    split at h
    · exact absurd h (by simp)
    next cs2 heq2 =>
      split at h
      · exact absurd h (by simp)
      next hh mi ss cs3 heq3 =>
        split at h
        · exact absurd h (by simp)
        next ms cs4 heq4 =>
          split at h
          · injection h with h2
            rw [← h2]
            exact eatFrac_millis_lt cs3 ms cs4 heq4
          · exact absurd h (by simp)

theorem fdiv_add_millis (a : Int) (b : Nat) (hb : b < 1000) :
    Int.fdiv (a * 1000 + (b : Int)) 1000 = a := by
  rw [Int.fdiv_eq_ediv _ (by norm_num)]
  rw [Int.add_comm]
  rw [Int.add_mul_ediv_right _ _ (by norm_num : (1000 : Int) ≠ 0)]
  rw [Int.ediv_eq_zero_of_lt (Int.ofNat_nonneg b) (by exact_mod_cast hb)]
  rw [Int.zero_add]

/-- C7: every row the stats consumer persists carries the parsed loggedAt
instant unchanged in its timestamp field (millisecond precision preserved),
and its timestamp_seconds field is that instant truncated to whole seconds:
the floor of the millisecond total divided by one thousand, that is,
Timestamp.Unix() of the parsed time. -/
theorem stats_row_timestamp_truncation (logLine : String) (row : LogLine)
    (h : processLogLine logLine = GoOutcome.ok (some row)) :
    ∃ m : StatsMatch, findStats logLine.data = some m ∧
      parseGoTime m.loggedTime = some row.timestamp ∧
      row.timestampSeconds = goUnix row.timestamp ∧
      row.timestamp.millis < 1000 ∧
      row.timestampSeconds = Int.fdiv (goTimeTotalMillis row.timestamp) 1000 := by
  unfold processLogLine at h
  split at h
  · exact absurd h (by simp)
  next m heqf =>
    split at h
    · injection h with h2
      exact absurd h2 (by simp)
    next t heqp =>
      injection h with h2
      injection h2 with h3
      refine ⟨m, heqf, ?_, ?_, ?_, ?_⟩
      · rw [← h3]
        exact heqp
      · rw [← h3]
        rfl
      · rw [← h3]
        exact parseGoTime_millis_lt m.loggedTime t heqp
      · rw [← h3]
        show goUnix t = Int.fdiv (goTimeTotalMillis (goUTC t)) 1000
        show t.sec = Int.fdiv (t.sec * 1000 + (t.millis : Int)) 1000
        exact (fdiv_add_millis t.sec t.millis (parseGoTime_millis_lt m.loggedTime t heqp)).symm

theorem stats_row_timestamp_truncation_witness :
    processLogLine "1:10::main 2023-01-01 00:00:00,123 - start"
      = GoOutcome.ok (some ⟨"1", "10", ⟨1672531200, 123⟩, 1672531200, "start"⟩) ∧
    (⟨1672531200, 123⟩ : GoTime).millis < 1000 ∧
    (1672531200 : Int) = Int.fdiv (goTimeTotalMillis ⟨1672531200, 123⟩) 1000 := by
  have h := stats_row_timestamp_truncation "1:10::main 2023-01-01 00:00:00,123 - start"
    ⟨"1", "10", ⟨1672531200, 123⟩, 1672531200, "start"⟩ (by decide)
  obtain ⟨m, h1, h2, h3, h4, h5⟩ := h
  exact ⟨by decide, h4, h5⟩

/-- C1 (refuting the no-crash claim): the record below is published by the
producer (it contains " - ") but does not match the stats regex, and
processLogLine then reads matches[1] from the nil FindStringSubmatch result:
a runtime index-out-of-range panic, not a logged drop. Timestamp parse
failures alone are dropped gracefully, but pattern mismatch is not. -/
theorem stats_consumer_panics_on_unmatched_record :
    (publishOne "hello - world").isSome = true ∧
    processLogLine "hello - world" = GoOutcome.panicked := by
  exact ⟨by decide, by decide⟩

/-- C2 (refuting the key derivation claim): for the record below the header's
numeric fields are processID 1 and threadID 10, yet PublishToKafka keys the
message with everything before the first " - " (the whole header prefix,
including thread name and timestamp), which differs from "1-10". -/
theorem publish_key_is_header_prefix_not_pid_tid :
    findStats ("1:10::main 2023-01-01 00:00:00,000 - start" : String).data
      = some ⟨"1".data, "10".data, "main".data,
          "2023-01-01 00:00:00,000".data, "start".data⟩ ∧
    publishOne "1:10::main 2023-01-01 00:00:00,000 - start"
      = some ⟨"1:10::main 2023-01-01 00:00:00,000",
          "1:10::main 2023-01-01 00:00:00,000 - start"⟩ ∧
    ("1:10::main 2023-01-01 00:00:00,000" : String) ≠ "1" ++ "-" ++ "10" := by
  exact ⟨by decide, by decide, by decide⟩

end EightfoldPipeline
